import Mathlib

/-!
# Verification of the HiRISE monocular depth-estimation demo pipeline

Shallow embedding of `app.py`: the checkpoint-key transform of `load_model`,
the point-cloud construction of `generate_mesh`, the depth-map inversion and
renderer configuration of `predict`, and the mesh post-processing sequence.
Grids of scalar values are modelled over `ℚ`; a grid is a shape together with
a cell function, and out-of-range indexing fails (as numpy indexing does).
-/

namespace HiRISE

/-! ## Checkpoint weight loading (`load_model`)

`app.py` line 20: `weights = {k[6:]:v for (k, v) in weights.items()}`.
Keys are modelled as `List Char` (Python `k[6:]` drops the first six code
points); the state dict is an association list in iteration order. -/

/-- The transform applied to the checkpoint's state dict before
`load_state_dict`: every key loses its first 6 characters, values are kept. -/
def stripWeightKeys {V : Type} (ws : List (List Char × V)) : List (List Char × V) :=
  ws.map (fun kv => (kv.1.drop 6, kv.2))

/-! ## Grids

`IntensityGrid` / `DepthGrid` are fixed-shape 2-D arrays of scalars.
`data` is total as a Lean function; only cells with `i < rows ∧ j < cols`
are meaningful, and `lookup` (numpy `g[i, j]`) fails outside them. -/

/-- Fixed grid width, `app.py` line 14: `W, H = 512, 512`. -/
def Wd : ℕ := 512

/-- Fixed grid height, `app.py` line 14: `W, H = 512, 512`. -/
def Ht : ℕ := 512

/-- A 2-D grid of rational scalars with an explicit shape. -/
structure Grid where
  rows : ℕ
  cols : ℕ
  data : ℕ → ℕ → ℚ

/-- numpy-style checked indexing: `g[i, j]` succeeds exactly when the index
is inside the grid's shape, and raises (`none`) otherwise. -/
def Grid.lookup (g : Grid) (i j : ℕ) : Option ℚ :=
  if i < g.rows ∧ j < g.cols then some (g.data i j) else none

/-- The grid's cells listed in row-major order (only in-shape cells). -/
def Grid.cellList (g : Grid) : List ℚ :=
  (List.range g.rows).flatMap (fun i => (List.range g.cols).map (fun j => g.data i j))

/-- numpy `g.max()`: the maximum of all cells (0 for an empty grid, a case
numpy rejects and the pipeline never produces). -/
def Grid.max (g : Grid) : ℚ :=
  match g.cellList with
  | [] => 0
  | x :: xs => xs.foldl Max.max x

/-- numpy `g.min()`: the minimum of all cells (0 for an empty grid). -/
def Grid.min (g : Grid) : ℚ :=
  match g.cellList with
  | [] => 0
  | x :: xs => xs.foldl Min.min x

/-! ## Depth inversion (`predict`)

`app.py` line 72: `pred_dtm = pred_dtm.max() - pred_dtm`. -/

/-- The elementwise inversion applied to the predictor's output before any
downstream use: each cell becomes `max − value`. -/
def invertGrid (g : Grid) : Grid :=
  { rows := g.rows, cols := g.cols, data := fun i j => g.max - g.data i j }

/-! ## Visualization renderer (`predict`)

`app.py` line 79: `ax.imshow(pred_dtm, cmap="jet", vmin=0, vmax=np.max(pred_dtm))`. -/

/-- The scaling parameters handed to the heat-map renderer. -/
structure RenderParams where
  vmin : ℚ
  vmax : ℚ

/-- The renderer configuration built by `predict` for a displayed grid. -/
def renderParams (g : Grid) : RenderParams :=
  { vmin := 0, vmax := g.max }

/-- Modelled from the spec: the renderer's color normalization (the plotting
library's `Normalize`, which is not part of this repository) maps a value to
`(v − vmin)/(vmax − vmin)` and, per the spec, "must not divide by zero" on a
constant grid: the degenerate `vmax = vmin` case is guarded and yields 0. -/
def normalizeValue (p : RenderParams) (v : ℚ) : ℚ :=
  if p.vmax = p.vmin then 0 else (v - p.vmin) / (p.vmax - p.vmin)

/-! ### Basic facts about `Grid.max` / `Grid.min` -/

theorem le_foldl_max (b a : ℚ) (l : List ℚ) (h : a ≤ b ∨ a ∈ l) :
    a ≤ l.foldl Max.max b := by
  induction l generalizing b with
  | nil =>
    rcases h with h | h
    · exact h
    · simp at h
  | cons x xs ih =>
    simp only [List.foldl_cons]
    rcases h with h | h
    · exact ih (Max.max b x) (Or.inl (h.trans (le_max_left b x)))
    · rcases List.mem_cons.mp h with h | h
      · exact ih (Max.max b x) (Or.inl (h ▸ le_max_right b x))
      · exact ih (Max.max b x) (Or.inr h)

theorem foldl_max_mem (b : ℚ) (l : List ℚ) :
    l.foldl Max.max b = b ∨ l.foldl Max.max b ∈ l := by
  induction l generalizing b with
  | nil => simp
  | cons x xs ih =>
    simp only [List.foldl_cons]
    rcases ih (Max.max b x) with h | h
    · rcases max_choice b x with hb | hb
      · exact Or.inl (h.trans hb)
      · exact Or.inr (by rw [h, hb]; exact List.mem_cons_self x xs)
    · exact Or.inr (List.mem_cons_of_mem _ h)

theorem foldl_min_le (b a : ℚ) (l : List ℚ) (h : b ≤ a ∨ a ∈ l) :
    l.foldl Min.min b ≤ a := by
  induction l generalizing b with
  | nil =>
    rcases h with h | h
    · exact h
    · simp at h
  | cons x xs ih =>
    simp only [List.foldl_cons]
    rcases h with h | h
    · exact ih (Min.min b x) (Or.inl ((min_le_left b x).trans h))
    · rcases List.mem_cons.mp h with h | h
      · exact ih (Min.min b x) (Or.inl (h ▸ min_le_right b x))
      · exact ih (Min.min b x) (Or.inr h)

theorem foldl_min_mem (b : ℚ) (l : List ℚ) :
    l.foldl Min.min b = b ∨ l.foldl Min.min b ∈ l := by
  induction l generalizing b with
  | nil => simp
  | cons x xs ih =>
    simp only [List.foldl_cons]
    rcases ih (Min.min b x) with h | h
    · rcases min_choice b x with hb | hb
      · exact Or.inl (h.trans hb)
      · exact Or.inr (by rw [h, hb]; exact List.mem_cons_self x xs)
    · exact Or.inr (List.mem_cons_of_mem _ h)

theorem mem_cellList (g : Grid) (i j : ℕ) (hi : i < g.rows) (hj : j < g.cols) :
    g.data i j ∈ g.cellList := by
  unfold Grid.cellList
  refine List.mem_flatMap.mpr ⟨i, List.mem_range.mpr hi, ?_⟩
  exact List.mem_map.mpr ⟨j, List.mem_range.mpr hj, rfl⟩

theorem cellList_mem_shape (g : Grid) (a : ℚ) (h : a ∈ g.cellList) :
    ∃ i j, i < g.rows ∧ j < g.cols ∧ a = g.data i j := by
  unfold Grid.cellList at h
  rcases List.mem_flatMap.mp h with ⟨i, hi, hmem⟩
  rcases List.mem_map.mp hmem with ⟨j, hj, hval⟩
  exact ⟨i, j, List.mem_range.mp hi, List.mem_range.mp hj, hval.symm⟩

/-- Every in-shape cell is bounded by `Grid.max`. -/
theorem cell_le_max (g : Grid) (i j : ℕ) (hi : i < g.rows) (hj : j < g.cols) :
    g.data i j ≤ g.max := by
  have hmem := mem_cellList g i j hi hj
  unfold Grid.max
  cases hc : g.cellList with
  | nil => rw [hc] at hmem; simp at hmem
  | cons x xs =>
    rw [hc] at hmem
    rcases List.mem_cons.mp hmem with h | h
    · exact le_foldl_max x _ xs (Or.inl (le_of_eq h))
    · exact le_foldl_max x _ xs (Or.inr h)

/-- On a nonempty grid, `Grid.max` is attained at some in-shape cell. -/
theorem max_attained (g : Grid) (hr : 0 < g.rows) (hc : 0 < g.cols) :
    ∃ i j, i < g.rows ∧ j < g.cols ∧ g.max = g.data i j := by
  have hne : g.cellList ≠ [] := by
    intro h
    have := mem_cellList g 0 0 hr hc
    rw [h] at this
    simp at this
  unfold Grid.max
  cases hcl : g.cellList with
  | nil => exact absurd hcl hne
  | cons x xs =>
    have hmem : xs.foldl Max.max x ∈ g.cellList := by
      rw [hcl]
      rcases foldl_max_mem x xs with h | h
      · simp [h]
      · exact List.mem_cons_of_mem _ h
    exact cellList_mem_shape g _ hmem

/-- Every in-shape cell is bounded below by `Grid.min`. -/
theorem min_le_cell (g : Grid) (i j : ℕ) (hi : i < g.rows) (hj : j < g.cols) :
    g.min ≤ g.data i j := by
  have hmem := mem_cellList g i j hi hj
  unfold Grid.min
  cases hc : g.cellList with
  | nil => rw [hc] at hmem; simp at hmem
  | cons x xs =>
    rw [hc] at hmem
    rcases List.mem_cons.mp hmem with h | h
    · exact foldl_min_le x _ xs (Or.inl (ge_of_eq h))
    · exact foldl_min_le x _ xs (Or.inr h)

/-- On a nonempty grid, `Grid.min` is attained at some in-shape cell. -/
theorem min_attained (g : Grid) (hr : 0 < g.rows) (hc : 0 < g.cols) :
    ∃ i j, i < g.rows ∧ j < g.cols ∧ g.min = g.data i j := by
  have hne : g.cellList ≠ [] := by
    intro h
    have := mem_cellList g 0 0 hr hc
    rw [h] at this
    simp at this
  unfold Grid.min
  cases hcl : g.cellList with
  | nil => exact absurd hcl hne
  | cons x xs =>
    have hmem : xs.foldl Min.min x ∈ g.cellList := by
      rw [hcl]
      rcases foldl_min_mem x xs with h | h
      · simp [h]
      · exact List.mem_cons_of_mem _ h
    exact cellList_mem_shape g _ hmem

/-! ## Point-cloud construction (`generate_mesh`, lines 27–35)

The source allocates two zero arrays of shape `(W*H, 3)` and fills them in a
nested loop over rows `i` and columns `j`, writing at flat index `i * H + j`:
`points[i*H+j] = (abs(j - 512), i, dtm[i, j])`, `colors[i*H+j] = image[i, j]`
broadcast over the three channels.  Arrays are modelled as lists of triples,
a write as `List.set`, and the loop as a monadic fold over the row-major
pixel list in which each numpy read `dtm[i, j]` / `image[i, j]` may fail. -/

/-- A 3-component row of the `points` / `colors` arrays. -/
abbrev Vec3 := ℚ × ℚ × ℚ

/-- The position written for pixel `(i, j)` with depth value `z`:
`(abs(j - 512), i, z)` — the literal constant 512 from the source. -/
def pointPos (i j : ℕ) (z : ℚ) : Vec3 :=
  ((|(j : ℤ) - 512| : ℤ), (i : ℚ), z)

/-- The color written for pixel `(i, j)` with intensity `c`: `c` broadcast
to the three channels (`colors[i*H+j, :3] = image[i, j]`). -/
def colorVal (c : ℚ) : Vec3 := (c, c, c)

/-- The pixels `(i, j)` visited by the nested loop, in loop order. -/
def pixelList : List (ℕ × ℕ) :=
  (List.range Ht).flatMap (fun i => (List.range Wd).map (fun j => (i, j)))

/-- The flat array index `i * H + j` targeted at pixel `(i, j)`. -/
def flatIndex (p : ℕ × ℕ) : ℕ := p.1 * Ht + p.2

/-- One iteration of the loop body: read `dtm[i, j]` and `image[i, j]`
(either read raises if out of range) and write the point and color rows. -/
def loopStep (dtm img : Grid) (acc : List Vec3 × List Vec3) (p : ℕ × ℕ) :
    Option (List Vec3 × List Vec3) :=
  (dtm.lookup p.1 p.2).bind fun z =>
    (img.lookup p.1 p.2).map fun c =>
      (acc.1.set (flatIndex p) (pointPos p.1 p.2 z),
       acc.2.set (flatIndex p) (colorVal c))

/-- `np.zeros(shape=(W * H, 3))`. -/
def zeros3 : List Vec3 := List.replicate (Wd * Ht) (0, 0, 0)

/-- The full point-cloud construction: the nested loop of `generate_mesh`
over both arrays, failing if any read is out of range. -/
def buildPointCloud (dtm img : Grid) : Option (List Vec3 × List Vec3) :=
  pixelList.foldlM (loopStep dtm img) (zeros3, zeros3)

/-- Both reads at pixel `p` are in range. -/
def pixelValid (dtm img : Grid) (p : ℕ × ℕ) : Prop :=
  p.1 < dtm.rows ∧ p.2 < dtm.cols ∧ p.1 < img.rows ∧ p.2 < img.cols

theorem loopStep_eq_some (dtm img : Grid) (acc : List Vec3 × List Vec3)
    (p : ℕ × ℕ) (h : pixelValid dtm img p) :
    loopStep dtm img acc p =
      some (acc.1.set (flatIndex p) (pointPos p.1 p.2 (dtm.data p.1 p.2)),
            acc.2.set (flatIndex p) (colorVal (img.data p.1 p.2))) := by
  obtain ⟨h1, h2, h3, h4⟩ := h
  simp [loopStep, Grid.lookup, h1, h2, h3, h4]

theorem loopStep_eq_none (dtm img : Grid) (acc : List Vec3 × List Vec3)
    (p : ℕ × ℕ) (h : ¬ pixelValid dtm img p) :
    loopStep dtm img acc p = none := by
  unfold pixelValid at h
  unfold loopStep Grid.lookup
  by_cases h1 : p.1 < dtm.rows ∧ p.2 < dtm.cols
  · by_cases h2 : p.1 < img.rows ∧ p.2 < img.cols
    · exact absurd ⟨h1.1, h1.2, h2.1, h2.2⟩ h
    · simp [h1, h2]
  · simp [h1]

/-- Characterization of the loop on any pixel list whose flat indices are
pairwise distinct and in bounds: it succeeds, preserves the array lengths,
writes the expected row at every visited pixel's flat index and leaves all
other rows untouched. -/
theorem foldlM_loopStep_spec (dtm img : Grid) (l : List (ℕ × ℕ))
    (ps cs : List Vec3) (hlen : cs.length = ps.length)
    (hvalid : ∀ p ∈ l, pixelValid dtm img p)
    (hbound : ∀ p ∈ l, flatIndex p < ps.length)
    (hkeys : (l.map flatIndex).Nodup) :
    ∃ ps' cs',
      List.foldlM (loopStep dtm img) (ps, cs) l = some (ps', cs') ∧
      ps'.length = ps.length ∧ cs'.length = cs.length ∧
      (∀ p ∈ l,
        ps'[flatIndex p]? = some (pointPos p.1 p.2 (dtm.data p.1 p.2)) ∧
        cs'[flatIndex p]? = some (colorVal (img.data p.1 p.2))) ∧
      (∀ k, (∀ p ∈ l, flatIndex p ≠ k) → ps'[k]? = ps[k]? ∧ cs'[k]? = cs[k]?) := by
  induction l generalizing ps cs with
  | nil =>
    exact ⟨ps, cs, rfl, rfl, rfl, by simp, fun k _ => ⟨rfl, rfl⟩⟩
  | cons q rest ih =>
    have hq : pixelValid dtm img q := hvalid q (List.mem_cons_self q rest)
    have hqb : flatIndex q < ps.length := hbound q (List.mem_cons_self q rest)
    set ps₁ := ps.set (flatIndex q) (pointPos q.1 q.2 (dtm.data q.1 q.2)) with hps₁
    set cs₁ := cs.set (flatIndex q) (colorVal (img.data q.1 q.2)) with hcs₁
    have hlen₁ : ps₁.length = ps.length := List.length_set ps _ _
    have hclen₁ : cs₁.length = cs.length := List.length_set cs _ _
    have hkeys' : flatIndex q ∉ rest.map flatIndex ∧ (rest.map flatIndex).Nodup := by
      rw [List.map_cons, List.nodup_cons] at hkeys
      exact hkeys
    obtain ⟨ps', cs', hfold, hplen, hclen, hwrites, huntouched⟩ :=
      ih ps₁ cs₁ (by rw [hclen₁, hlen₁, hlen])
        (fun p hp => hvalid p (List.mem_cons_of_mem q hp))
        (fun p hp => hlen₁ ▸ hbound p (List.mem_cons_of_mem q hp))
        hkeys'.2
    have hknot : flatIndex q ∉ rest.map flatIndex := hkeys'.1
    refine ⟨ps', cs', ?_, hplen.trans hlen₁, hclen.trans hclen₁, ?_, ?_⟩
    · rw [List.foldlM_cons, loopStep_eq_some dtm img (ps, cs) q hq]
      exact hfold
    · intro p hp
      rcases List.mem_cons.mp hp with hp | hp
      · subst hp
        have hne : ∀ r ∈ rest, flatIndex r ≠ flatIndex p := by
          intro r hr heq
          exact hknot (heq ▸ List.mem_map_of_mem flatIndex hr)
        obtain ⟨h1, h2⟩ := huntouched (flatIndex p) hne
        constructor
        · rw [h1, hps₁, List.getElem?_set_self hqb]
        · rw [h2, hcs₁, List.getElem?_set_self (hlen ▸ hqb)]
      · exact hwrites p hp
    · intro k hk
      obtain ⟨h1, h2⟩ := huntouched k (fun p hp => hk p (List.mem_cons_of_mem q hp))
      have hkq : flatIndex q ≠ k := hk q (List.mem_cons_self q rest)
      constructor
      · rw [h1, hps₁, List.getElem?_set_ne hkq]
      · rw [h2, hcs₁, List.getElem?_set_ne hkq]

theorem range_flatMap_mul (a b : ℕ) :
    (List.range a).flatMap (fun i => (List.range b).map (fun j => i * b + j)) =
      List.range (a * b) := by
  induction a with
  | zero => simp
  | succ a ih =>
    rw [List.range_succ, List.flatMap_append, ih, Nat.succ_mul, List.range_add]
    simp

theorem pixelList_map_flatIndex : pixelList.map flatIndex = List.range (Ht * Wd) := by
  rw [pixelList, List.map_flatMap]
  have hinner : ∀ i : ℕ, ((List.range Wd).map (fun j => (i, j))).map flatIndex
      = (List.range Wd).map (fun j => i * Wd + j) := by
    intro i
    rw [List.map_map]
    rfl
  simp only [hinner]
  exact range_flatMap_mul Ht Wd

theorem pixelList_keys_nodup : (pixelList.map flatIndex).Nodup := by
  rw [pixelList_map_flatIndex]
  exact List.nodup_range _

theorem mem_pixelList (p : ℕ × ℕ) : p ∈ pixelList ↔ p.1 < Ht ∧ p.2 < Wd := by
  constructor
  · intro h
    rcases List.mem_flatMap.mp h with ⟨i, hi, hm⟩
    rcases List.mem_map.mp hm with ⟨j, hj, hpj⟩
    cases hpj
    exact ⟨List.mem_range.mp hi, List.mem_range.mp hj⟩
  · rintro ⟨h1, h2⟩
    exact List.mem_flatMap.mpr ⟨p.1, List.mem_range.mpr h1,
      List.mem_map.mpr ⟨p.2, List.mem_range.mpr h2, rfl⟩⟩

theorem flatIndex_lt (p : ℕ × ℕ) (h1 : p.1 < Ht) (h2 : p.2 < Wd) :
    flatIndex p < Wd * Ht := by
  unfold flatIndex Ht Wd at *
  omega

theorem zeros3_length : zeros3.length = Wd * Ht := List.length_replicate _ _

/-- On validly-sized grids (both dimensions at least 512), the construction
succeeds, the arrays have exactly `W*H` rows, and the row at flat index
`i*H + j` holds the point and color of pixel `(i, j)`. -/
theorem buildPointCloud_spec (dtm img : Grid)
    (h1 : Ht ≤ dtm.rows) (h2 : Wd ≤ dtm.cols) (h3 : Ht ≤ img.rows) (h4 : Wd ≤ img.cols) :
    ∃ ps cs, buildPointCloud dtm img = some (ps, cs) ∧
      ps.length = Wd * Ht ∧ cs.length = Wd * Ht ∧
      ∀ i j, i < Ht → j < Wd →
        ps[i * Ht + j]? = some (pointPos i j (dtm.data i j)) ∧
        cs[i * Ht + j]? = some (colorVal (img.data i j)) := by
  obtain ⟨ps, cs, hfold, hplen, hclen, hwrites, _⟩ :=
    foldlM_loopStep_spec dtm img pixelList zeros3 zeros3 rfl
      (fun p hp => by
        obtain ⟨hi, hj⟩ := (mem_pixelList p).mp hp
        exact ⟨lt_of_lt_of_le hi h1, lt_of_lt_of_le hj h2,
               lt_of_lt_of_le hi h3, lt_of_lt_of_le hj h4⟩)
      (fun p hp => by
        obtain ⟨hi, hj⟩ := (mem_pixelList p).mp hp
        rw [zeros3_length]
        exact flatIndex_lt p hi hj)
      pixelList_keys_nodup
  refine ⟨ps, cs, hfold, hplen.trans zeros3_length, hclen.trans zeros3_length, ?_⟩
  intro i j hi hj
  exact hwrites (i, j) ((mem_pixelList (i, j)).mpr ⟨hi, hj⟩)

/-- If any pixel of the list triggers an out-of-range read, the loop raises. -/
theorem foldlM_loopStep_none (dtm img : Grid) (l : List (ℕ × ℕ)) :
    ∀ acc, (∃ p ∈ l, ¬ pixelValid dtm img p) →
      List.foldlM (loopStep dtm img) acc l = none := by
  induction l with
  | nil =>
    intro acc h
    rcases h with ⟨p, hp, _⟩
    simp at hp
  | cons q rest ih =>
    intro acc h
    rw [List.foldlM_cons]
    by_cases hq : pixelValid dtm img q
    · rw [loopStep_eq_some dtm img acc q hq]
      have hrest : ∃ p ∈ rest, ¬ pixelValid dtm img p := by
        rcases h with ⟨p, hp, hnp⟩
        rcases List.mem_cons.mp hp with rfl | hp
        · exact absurd hq hnp
        · exact ⟨p, hp, hnp⟩
      simpa using ih _ hrest
    · rw [loopStep_eq_none dtm img acc q hq]
      rfl

/-- The construction succeeds exactly when every grid dimension is at least
512: smaller grids raise an index error, larger ones are silently accepted
(only their top-left 512×512 block is read). -/
theorem buildPointCloud_isSome_iff (dtm img : Grid) :
    (buildPointCloud dtm img).isSome ↔
      (512 ≤ dtm.rows ∧ 512 ≤ dtm.cols ∧ 512 ≤ img.rows ∧ 512 ≤ img.cols) := by
  constructor
  · intro h
    by_contra hc
    have hbad : ∃ p ∈ pixelList, ¬ pixelValid dtm img p := by
      rcases Nat.lt_or_ge dtm.rows 512 with hr | hr
      · exact ⟨(dtm.rows, 0), (mem_pixelList _).mpr ⟨hr, by simp [Wd]⟩,
          fun hv => lt_irrefl _ hv.1⟩
      rcases Nat.lt_or_ge dtm.cols 512 with hcc | hcc
      · exact ⟨(0, dtm.cols), (mem_pixelList _).mpr ⟨by simp [Ht], hcc⟩,
          fun hv => lt_irrefl _ hv.2.1⟩
      rcases Nat.lt_or_ge img.rows 512 with hir | hir
      · exact ⟨(img.rows, 0), (mem_pixelList _).mpr ⟨hir, by simp [Wd]⟩,
          fun hv => lt_irrefl _ hv.2.2.1⟩
      rcases Nat.lt_or_ge img.cols 512 with hic | hic
      · exact ⟨(0, img.cols), (mem_pixelList _).mpr ⟨by simp [Ht], hic⟩,
          fun hv => lt_irrefl _ hv.2.2.2⟩
      exact absurd ⟨hr, hcc, hir, hic⟩ hc
    rw [buildPointCloud, foldlM_loopStep_none dtm img pixelList _ hbad] at h
    simp at h
  · rintro ⟨h1, h2, h3, h4⟩
    obtain ⟨ps, cs, heq, _⟩ := buildPointCloud_spec dtm img h1 h2 h3 h4
    rw [heq]
    rfl

/-! ## Claim theorems -/

/-- Claim C4: model loading transforms the checkpoint's weight dictionary by
removing exactly the first 6 characters from every key (values untouched, no
other transform), so a checkpoint whose stored keys all share a fixed
6-character head loads with head-stripped keys matching exactly — in
particular distinct stored keys stay distinct, so no entry is lost. -/
theorem load_model_strips_six_chars {V : Type} (p : List Char) (hp : p.length = 6)
    (ws : List (List Char × V)) (hpre : ∀ kv ∈ ws, ∃ r, kv.1 = p ++ r) :
    (stripWeightKeys ws).map Prod.fst = ws.map (fun kv => kv.1.drop 6) ∧
    (stripWeightKeys ws).map Prod.snd = ws.map Prod.snd ∧
    (∀ kv ∈ ws, ∃ r, kv.1 = p ++ r ∧ (r, kv.2) ∈ stripWeightKeys ws) ∧
    ((ws.map Prod.fst).Nodup → ((stripWeightKeys ws).map Prod.fst).Nodup) := by
  refine ⟨?_, ?_, ?_, ?_⟩
  · unfold stripWeightKeys
    rw [List.map_map]
    rfl
  · unfold stripWeightKeys
    rw [List.map_map]
    rfl
  · intro kv hkv
    obtain ⟨r, hr⟩ := hpre kv hkv
    refine ⟨r, hr, ?_⟩
    have hmem : (kv.1.drop 6, kv.2) ∈ stripWeightKeys ws :=
      List.mem_map_of_mem _ hkv
    rwa [hr, List.drop_left' hp] at hmem
  · intro hnd
    have heq : (stripWeightKeys ws).map Prod.fst
        = (ws.map Prod.fst).map (fun k => k.drop 6) := by
      unfold stripWeightKeys
      rw [List.map_map, List.map_map]
      rfl
    rw [heq]
    refine List.Nodup.map_on ?_ hnd
    intro x hx y hy hxy
    obtain ⟨kx, hkx, hkx2⟩ := List.mem_map.mp hx
    obtain ⟨ky, hky, hky2⟩ := List.mem_map.mp hy
    obtain ⟨rx, hrx⟩ := hpre kx hkx
    obtain ⟨ry, hry⟩ := hpre ky hky
    subst hkx2
    subst hky2
    rw [hrx, hry, List.drop_left' hp, List.drop_left' hp] at hxy
    rw [hrx, hry, hxy]

/-- A two-entry state dict whose keys share the 6-character head `model.`. -/
def sampleWeights : List (List Char × ℕ) :=
  [(['m', 'o', 'd', 'e', 'l', '.', 'w'], 1), (['m', 'o', 'd', 'e', 'l', '.', 'b'], 2)]

/-- Witness for C4 at a concrete checkpoint. -/
theorem load_model_strips_six_chars_witness :
    (['m', 'o', 'd', 'e', 'l', '.'] : List Char).length = 6 ∧
    ((stripWeightKeys sampleWeights).map Prod.fst
        = sampleWeights.map (fun kv => kv.1.drop 6) ∧
     (stripWeightKeys sampleWeights).map Prod.snd = sampleWeights.map Prod.snd ∧
     (∀ kv ∈ sampleWeights, ∃ r,
        kv.1 = ['m', 'o', 'd', 'e', 'l', '.'] ++ r ∧ (r, kv.2) ∈ stripWeightKeys sampleWeights) ∧
     ((sampleWeights.map Prod.fst).Nodup →
        ((stripWeightKeys sampleWeights).map Prod.fst).Nodup)) :=
  ⟨by decide,
   load_model_strips_six_chars ['m', 'o', 'd', 'e', 'l', '.'] (by decide) sampleWeights
    (by
      intro kv hkv
      rcases List.mem_cons.mp hkv with rfl | hkv
      · exact ⟨['w'], rfl⟩
      rcases List.mem_cons.mp hkv with rfl | hkv
      · exact ⟨['b'], rfl⟩
      simp at hkv)⟩

/-- Claim C1: for every pair of 512×512 grids, the point-cloud construction
produces exactly `H*W = 262144` point/color rows, and the row at flat index
`i*H + j` holds position `(|j − 512|, i, DepthGrid[i][j])` with the intensity
`IntensityGrid[i][j]` broadcast to all three color channels, points and
colors positionally aligned at the same flat index. -/
theorem pointcloud_construction (dtm img : Grid)
    (hdr : dtm.rows = 512) (hdc : dtm.cols = 512)
    (hir : img.rows = 512) (hic : img.cols = 512) :
    ∃ ps cs, buildPointCloud dtm img = some (ps, cs) ∧
      ps.length = 262144 ∧ cs.length = 262144 ∧
      ∀ i j : ℕ, i < 512 → j < 512 →
        ps[i * 512 + j]? = some (((|(j : ℤ) - 512| : ℤ) : ℚ), (i : ℚ), dtm.data i j) ∧
        cs[i * 512 + j]? = some (img.data i j, img.data i j, img.data i j) := by
  obtain ⟨ps, cs, heq, hpl, hcl, hrows⟩ :=
    buildPointCloud_spec dtm img (by rw [hdr]; exact Nat.le.refl) (by rw [hdc]; exact Nat.le.refl)
      (by rw [hir]; exact Nat.le.refl) (by rw [hic]; exact Nat.le.refl)
  refine ⟨ps, cs, heq, ?_, ?_, ?_⟩
  · rw [hpl]
    rfl
  · rw [hcl]
    rfl
  · intro i j hi hj
    exact hrows i j hi hj

/-- A concrete 512×512 depth grid. -/
def gridA : Grid := ⟨512, 512, fun i j => (i : ℚ) - j⟩

/-- A concrete 512×512 intensity grid. -/
def gridB : Grid := ⟨512, 512, fun i j => (i : ℚ) + j⟩

/-- Witness for C1 at concrete 512×512 grids. -/
theorem pointcloud_construction_witness :
    gridA.rows = 512 ∧ gridA.cols = 512 ∧ gridB.rows = 512 ∧ gridB.cols = 512 ∧
    (∃ ps cs, buildPointCloud gridA gridB = some (ps, cs) ∧
      ps.length = 262144 ∧ cs.length = 262144 ∧
      ∀ i j : ℕ, i < 512 → j < 512 →
        ps[i * 512 + j]? = some (((|(j : ℤ) - 512| : ℤ) : ℚ), (i : ℚ), gridA.data i j) ∧
        cs[i * 512 + j]? = some (gridB.data i j, gridB.data i j, gridB.data i j)) :=
  ⟨rfl, rfl, rfl, rfl, pointcloud_construction gridA gridB rfl rfl rfl rfl⟩

/-- A 513×513 grid: its shape differs from the fixed 512×512. -/
def grid513 : Grid := ⟨513, 513, fun _ _ => 0⟩

/-- Claim C2 is false as stated: a 513×513 pair differs in shape from the
fixed 512×512, yet the point-cloud construction succeeds silently (reading
only the top-left 512×512 block) instead of failing. -/
theorem pointcloud_shape_counterexample :
    (grid513.rows ≠ 512 ∨ grid513.cols ≠ 512) ∧
    (buildPointCloud grid513 grid513).isSome := by
  constructor
  · left
    decide
  · obtain ⟨ps, cs, heq, _⟩ :=
      buildPointCloud_spec grid513 grid513 (by decide) (by decide) (by decide) (by decide)
    rw [heq]
    rfl

/-- Claim C2 (amended): the construction fails (an out-of-range read, the
code's only shape check) exactly when some dimension of either grid is
smaller than 512; every pair with both dimensions at least 512 — in
particular every validly-shaped 512×512 pair — succeeds with no error. -/
theorem pointcloud_shape_check (dtm img : Grid) :
    (buildPointCloud dtm img).isSome ↔
      (512 ≤ dtm.rows ∧ 512 ≤ dtm.cols ∧ 512 ≤ img.rows ∧ 512 ≤ img.cols) :=
  buildPointCloud_isSome_iff dtm img

/-- Claim C9: for every column `j < 512` the computed x coordinate
`abs(j − 512)` equals `512 − j`, lies in `[1, 512]`, is never 0, and together
with the y coordinate determines the pixel: the pixel-to-position map is
injective. -/
theorem mirrored_x_coordinate (i j : ℕ) (z : ℚ) (hj : j < 512) :
    (pointPos i j z).1 = ((512 - j : ℕ) : ℚ) ∧
    1 ≤ (pointPos i j z).1 ∧ (pointPos i j z).1 ≤ 512 ∧ (pointPos i j z).1 ≠ 0 ∧
    (∀ i' j' z', j' < 512 → (pointPos i j z).1 = (pointPos i' j' z').1 →
      (pointPos i j z).2.1 = (pointPos i' j' z').2.1 → i = i' ∧ j = j') := by
  have habs : ∀ n : ℕ, n < 512 → |(n : ℤ) - 512| = 512 - n := by
    intro n hn
    rw [abs_of_nonpos (by omega), neg_sub]
  have hx : ∀ n : ℕ, n < 512 → ((|(n : ℤ) - 512| : ℤ) : ℚ) = 512 - (n : ℚ) := by
    intro n hn
    rw [habs n hn]
    push_cast
    ring
  have hx1 : (pointPos i j z).1 = 512 - (j : ℚ) := hx j hj
  have hcast : ((512 - j : ℕ) : ℚ) = 512 - (j : ℚ) := by
    rw [Nat.cast_sub hj.le]
    push_cast
    ring
  have hjq : (j : ℚ) ≤ 511 := by
    exact_mod_cast Nat.lt_succ_iff.mp hj
  refine ⟨hx1.trans hcast.symm, ?_, ?_, ?_, ?_⟩
  · rw [hx1]
    linarith
  · rw [hx1]
    have : (0 : ℚ) ≤ (j : ℚ) := Nat.cast_nonneg j
    linarith
  · rw [hx1]
    intro h0
    have h512 : (512 : ℚ) = (j : ℚ) := sub_eq_zero.mp h0
    linarith
  · intro i' j' z' hj' hxeq hyeq
    have hx1' : (pointPos i' j' z').1 = 512 - (j' : ℚ) := hx j' hj'
    rw [hx1, hx1'] at hxeq
    have hj2 : (j : ℚ) = (j' : ℚ) := by linarith
    have hi2 : (i : ℚ) = (i' : ℚ) := hyeq
    exact ⟨Nat.cast_injective hi2, Nat.cast_injective hj2⟩

/-- Witness for C9 at pixel `(3, 5)` with depth 7. -/
theorem mirrored_x_coordinate_witness :
    (5 : ℕ) < 512 ∧
    ((pointPos 3 5 7).1 = ((512 - 5 : ℕ) : ℚ) ∧
     1 ≤ (pointPos 3 5 7).1 ∧ (pointPos 3 5 7).1 ≤ 512 ∧ (pointPos 3 5 7).1 ≠ 0 ∧
     (∀ i' j' z', j' < 512 → (pointPos 3 5 7).1 = (pointPos i' j' z').1 →
        (pointPos 3 5 7).2.1 = (pointPos i' j' z').2.1 → 3 = i' ∧ 5 = j')) :=
  ⟨by decide, mirrored_x_coordinate 3 5 7 (by decide)⟩

/-- `predict` lines 72–79: `pred_dtm = pred_dtm.max() - pred_dtm` is computed
once, and that single inverted grid is what both downstream consumers get —
the mesh branch (`generate_mesh(pred_dtm, ...)`) and the display branch
(`imshow(pred_dtm, vmin=0, vmax=np.max(pred_dtm))`). -/
def predictArtifacts (pred img : Grid) : Option (List Vec3 × List Vec3) × RenderParams :=
  (buildPointCloud (invertGrid pred) img, renderParams (invertGrid pred))

/-- Claim C3: the grid the downstream pipeline consumes is the elementwise
inversion of the predictor's output — each cell equals the grid's true
maximum (an attained upper bound of all cells) minus that cell's value — and
the inversion is computed once: the point-cloud builder and the renderer both
receive the same inverted grid. -/
theorem depth_inversion_before_downstream (pred img : Grid)
    (hr : 0 < pred.rows) (hc : 0 < pred.cols) :
    (∀ i j, i < pred.rows → j < pred.cols →
      (invertGrid pred).data i j = pred.max - pred.data i j ∧
      pred.data i j ≤ pred.max) ∧
    (∃ i j, i < pred.rows ∧ j < pred.cols ∧ pred.max = pred.data i j) ∧
    (predictArtifacts pred img).1 = buildPointCloud (invertGrid pred) img ∧
    (predictArtifacts pred img).2 = renderParams (invertGrid pred) := by
  refine ⟨?_, ?_, ?_, ?_⟩
  · intro i j hi hj
    exact ⟨rfl, cell_le_max pred i j hi hj⟩
  · exact max_attained pred hr hc
  · simp only [predictArtifacts]
  · simp only [predictArtifacts]

/-- A concrete 2×2 predictor output. -/
def gridC : Grid := ⟨2, 2, fun i j => (i : ℚ) + 2 * j⟩

/-- Witness for C3 at a concrete predictor output. -/
theorem depth_inversion_before_downstream_witness :
    0 < gridC.rows ∧ 0 < gridC.cols ∧
    ((∀ i j, i < gridC.rows → j < gridC.cols →
        (invertGrid gridC).data i j = gridC.max - gridC.data i j ∧
        gridC.data i j ≤ gridC.max) ∧
     (∃ i j, i < gridC.rows ∧ j < gridC.cols ∧ gridC.max = gridC.data i j) ∧
     (predictArtifacts gridC gridB).1 = buildPointCloud (invertGrid gridC) gridB ∧
     (predictArtifacts gridC gridB).2 = renderParams (invertGrid gridC)) :=
  ⟨by decide, by decide,
   depth_inversion_before_downstream gridC gridB (by decide) (by decide)⟩

/-- Claim C6: the renderer's displayed scale has minimum 0 and maximum equal
to the displayed grid's own (attained) maximum — a per-request scale, not a
global one — and on a constant grid the guarded normalization is still
well defined: it evaluates to 0 or 1 rather than dividing by zero. -/
theorem renderer_scale (g : Grid) (hr : 0 < g.rows) (hc : 0 < g.cols) :
    (renderParams g).vmin = 0 ∧
    (renderParams g).vmax = g.max ∧
    (∀ i j, i < g.rows → j < g.cols → g.data i j ≤ (renderParams g).vmax) ∧
    (∃ i j, i < g.rows ∧ j < g.cols ∧ (renderParams g).vmax = g.data i j) ∧
    (∀ c : ℚ, (∀ i j, i < g.rows → j < g.cols → g.data i j = c) →
      normalizeValue (renderParams g) c = if c = 0 then 0 else 1) := by
  refine ⟨rfl, rfl, fun i j hi hj => cell_le_max g i j hi hj, max_attained g hr hc, ?_⟩
  intro c hconst
  have hmax : g.max = c := by
    obtain ⟨i, j, hi, hj, h⟩ := max_attained g hr hc
    rw [h, hconst i j hi hj]
  have hvmax : (renderParams g).vmax = c := hmax
  have hvmin : (renderParams g).vmin = 0 := rfl
  by_cases hc0 : c = 0
  · rw [if_pos hc0]
    unfold normalizeValue
    rw [if_pos (by rw [hvmax, hvmin, hc0])]
  · rw [if_neg hc0]
    unfold normalizeValue
    rw [if_neg (by rw [hvmax, hvmin]; exact hc0), hvmax, hvmin, sub_zero]
    exact div_self hc0

/-- A concrete constant 2×3 grid. -/
def gridK : Grid := ⟨2, 3, fun _ _ => (7 : ℚ)⟩

/-- Witness for C6 at a concrete constant grid. -/
theorem renderer_scale_witness :
    0 < gridK.rows ∧ 0 < gridK.cols ∧
    ((renderParams gridK).vmin = 0 ∧
     (renderParams gridK).vmax = gridK.max ∧
     (∀ i j, i < gridK.rows → j < gridK.cols → gridK.data i j ≤ (renderParams gridK).vmax) ∧
     (∃ i j, i < gridK.rows ∧ j < gridK.cols ∧ (renderParams gridK).vmax = gridK.data i j) ∧
     (∀ c : ℚ, (∀ i j, i < gridK.rows → j < gridK.cols → gridK.data i j = c) →
        normalizeValue (renderParams gridK) c = if c = 0 then 0 else 1)) :=
  ⟨by decide, by decide, renderer_scale gridK (by decide) (by decide)⟩

/-- Claim C10: after the `max − value` inversion every cell is nonnegative,
the inverted grid's minimum is exactly 0 (attained at each cell where the
predictor's output was maximal), every z coordinate of the built point cloud
is nonnegative, and the renderer's `vmax` equals the full value range
(max − min) of the displayed grid. -/
theorem inverted_grid_min_zero (pred img : Grid)
    (hdr : pred.rows = 512) (hdc : pred.cols = 512)
    (hir : img.rows = 512) (hic : img.cols = 512) :
    (∀ i j, i < 512 → j < 512 → 0 ≤ (invertGrid pred).data i j) ∧
    (invertGrid pred).min = 0 ∧
    (∀ i j, i < 512 → j < 512 → pred.data i j = pred.max →
      (invertGrid pred).data i j = 0) ∧
    (∃ ps cs, buildPointCloud (invertGrid pred) img = some (ps, cs) ∧
      ∀ i j : ℕ, i < 512 → j < 512 →
        ps[i * 512 + j]? = some (pointPos i j ((invertGrid pred).data i j)) ∧
        0 ≤ (pointPos i j ((invertGrid pred).data i j)).2.2) ∧
    (renderParams (invertGrid pred)).vmax =
      (invertGrid pred).max - (invertGrid pred).min := by
  have hrpos : 0 < pred.rows := by rw [hdr]; exact Nat.succ_pos _
  have hcpos : 0 < pred.cols := by rw [hdc]; exact Nat.succ_pos _
  have hnonneg : ∀ i j, i < 512 → j < 512 → 0 ≤ (invertGrid pred).data i j := by
    intro i j hi hj
    have hle := cell_le_max pred i j (hdr ▸ hi) (hdc ▸ hj)
    exact sub_nonneg.mpr hle
  have hmin0 : (invertGrid pred).min = 0 := by
    apply le_antisymm
    · obtain ⟨i0, j0, hi0, hj0, hm⟩ := max_attained pred hrpos hcpos
      have hcell : (invertGrid pred).data i0 j0 = 0 := by
        show pred.max - pred.data i0 j0 = 0
        rw [hm, sub_self]
      have := min_le_cell (invertGrid pred) i0 j0 hi0 hj0
      rwa [hcell] at this
    · obtain ⟨i, j, hi, hj, hm⟩ := min_attained (invertGrid pred) hrpos hcpos
      rw [hm]
      exact hnonneg i j (hdr ▸ hi) (hdc ▸ hj)
  refine ⟨hnonneg, hmin0, ?_, ?_, ?_⟩
  · intro i j _ _ h
    show pred.max - pred.data i j = 0
    rw [h, sub_self]
  · obtain ⟨ps, cs, heq, _, _, hrows⟩ :=
      buildPointCloud_spec (invertGrid pred) img
        (show Ht ≤ pred.rows by rw [hdr]; exact Nat.le.refl)
        (show Wd ≤ pred.cols by rw [hdc]; exact Nat.le.refl)
        (by rw [hir]; exact Nat.le.refl) (by rw [hic]; exact Nat.le.refl)
    refine ⟨ps, cs, heq, ?_⟩
    intro i j hi hj
    exact ⟨(hrows i j hi hj).1, hnonneg i j hi hj⟩
  · show (invertGrid pred).max = (invertGrid pred).max - (invertGrid pred).min
    rw [hmin0, sub_zero]

/-- Witness for C10 at concrete 512×512 grids. -/
theorem inverted_grid_min_zero_witness :
    gridA.rows = 512 ∧ gridA.cols = 512 ∧ gridB.rows = 512 ∧ gridB.cols = 512 ∧
    ((∀ i j, i < 512 → j < 512 → 0 ≤ (invertGrid gridA).data i j) ∧
     (invertGrid gridA).min = 0 ∧
     (∀ i j, i < 512 → j < 512 → gridA.data i j = gridA.max →
        (invertGrid gridA).data i j = 0) ∧
     (∃ ps cs, buildPointCloud (invertGrid gridA) gridB = some (ps, cs) ∧
        ∀ i j : ℕ, i < 512 → j < 512 →
          ps[i * 512 + j]? = some (pointPos i j ((invertGrid gridA).data i j)) ∧
          0 ≤ (pointPos i j ((invertGrid gridA).data i j)).2.2) ∧
     (renderParams (invertGrid gridA)).vmax =
        (invertGrid gridA).max - (invertGrid gridA).min) :=
  ⟨rfl, rfl, rfl, rfl, inverted_grid_min_zero gridA gridB rfl rfl rfl rfl⟩

/-! ## Mesh post-processing (`generate_mesh`, lines 46–53)

The six in-place operations after Poisson reconstruction call into the
geometry library, whose implementation is not part of this repository; their
effect on the vertex/triangle data is modelled here from the spec's
description of the collaborator contract (§4.4). A mesh is its vertex list
and its triangle list of vertex-index triples. -/

/-- A triangle as a triple of vertex indices. -/
abbrev Tri := ℕ × ℕ × ℕ

/-- A triangle mesh: vertex positions and index triples. -/
structure Mesh where
  vertices : List Vec3
  triangles : List Tri

/-- Modelled from the spec: `mesh.rotate(rotation, center)` maps every vertex
through the rigid transform; connectivity is untouched. The transform is
abstracted as a function on positions. -/
def rotateMesh (f : Vec3 → Vec3) (m : Mesh) : Mesh :=
  { vertices := m.vertices.map f, triangles := m.triangles }

/-- Modelled from the spec: `mesh.compute_vertex_normals()` recomputes the
per-vertex normal attribute only; vertex positions and triangles are
untouched, and normals are not part of the data tracked here, so on this
projection of the mesh state the operation is the identity. -/
def computeVertexNormals (m : Mesh) : Mesh := m

/-- A triangle is non-degenerate when its three vertex indices are pairwise
distinct (the library removes triangles that reference a vertex twice). -/
def triOK (t : Tri) : Bool :=
  decide (t.1 ≠ t.2.1) && decide (t.2.1 ≠ t.2.2) && decide (t.1 ≠ t.2.2)

/-- Modelled from the spec: `remove_degenerate_triangles` drops triangles of
zero area (a repeated vertex index); vertices are untouched. -/
def removeDegenerateTriangles (m : Mesh) : Mesh :=
  { m with triangles := m.triangles.filter triOK }

/-- Keep the first occurrence of each key, dropping later repeats; `seen`
accumulates the keys already emitted. -/
def dedupSeen {α β : Type} [DecidableEq β] (key : α → β) : List β → List α → List α
  | _, [] => []
  | seen, a :: as =>
    if key a ∈ seen then dedupSeen key seen as
    else a :: dedupSeen key (key a :: seen) as

/-- Deduplicate a list by a key function, keeping first occurrences. -/
def dedupByKey {α β : Type} [DecidableEq β] (key : α → β) (l : List α) : List α :=
  dedupSeen key [] l

/-- The unordered content of a triangle's index triple (smallest, middle,
largest index) — two triangles are duplicates when these agree, independent
of vertex order. -/
def triKey (t : Tri) : ℕ × ℕ × ℕ :=
  (Nat.min t.1 (Nat.min t.2.1 t.2.2),
   t.1 + t.2.1 + t.2.2 - Nat.min t.1 (Nat.min t.2.1 t.2.2)
     - Nat.max t.1 (Nat.max t.2.1 t.2.2),
   Nat.max t.1 (Nat.max t.2.1 t.2.2))

/-- Modelled from the spec: `remove_duplicated_triangles` drops triangles
referencing the same three vertices as an earlier one, in any order. -/
def removeDuplicatedTriangles (m : Mesh) : Mesh :=
  { m with triangles := dedupByKey triKey m.triangles }

/-- The index of the first occurrence of `x` in a vertex list (the list's
length when absent). -/
def vecIdx (x : Vec3) : List Vec3 → ℕ
  | [] => 0
  | v :: vs => if v = x then 0 else vecIdx x vs + 1

/-- The index a vertex index `k` of the old vertex list gets after coincident
vertices are merged into `new`. -/
def remapIndex (old new : List Vec3) (k : ℕ) : ℕ :=
  vecIdx (old.getD k (0, 0, 0)) new

/-- Modelled from the spec: `remove_duplicated_vertices` merges vertices with
identical coordinates (keeping first occurrences) and rewrites every triangle
index to point at the merged vertex. -/
def removeDuplicatedVertices (m : Mesh) : Mesh :=
  { vertices := dedupByKey id m.vertices,
    triangles := m.triangles.map (fun t =>
      (remapIndex m.vertices (dedupByKey id m.vertices) t.1,
       remapIndex m.vertices (dedupByKey id m.vertices) t.2.1,
       remapIndex m.vertices (dedupByKey id m.vertices) t.2.2)) }

/-- An undirected edge between two vertex indices. -/
def normEdge (a b : ℕ) : ℕ × ℕ := (Nat.min a b, Nat.max a b)

/-- The three undirected edges of a triangle. -/
def triEdges (t : Tri) : List (ℕ × ℕ) :=
  [normEdge t.1 t.2.1, normEdge t.2.1 t.2.2, normEdge t.1 t.2.2]

/-- How many triangles of `ts` are adjacent to edge `e`. -/
def edgeDegree (ts : List Tri) (e : ℕ × ℕ) : ℕ :=
  (ts.filter (fun t => decide (e ∈ triEdges t))).length

/-- A triangle all of whose edges are manifold (at most two adjacent
triangles) in `ts`. -/
def manifoldTri (ts : List Tri) (t : Tri) : Bool :=
  (triEdges t).all (fun e => decide (edgeDegree ts e ≤ 2))

/-- Modelled from the spec: `remove_non_manifold_edges` deletes the triangles
adjacent to edges shared by more than two triangles; afterwards every
remaining edge is manifold. -/
def removeNonManifoldEdges (m : Mesh) : Mesh :=
  { m with triangles := m.triangles.filter (manifoldTri m.triangles) }

/-- The four-step cleanup sequence of lines 50–53, in source order. -/
def cleanupMesh (m : Mesh) : Mesh :=
  removeNonManifoldEdges
    (removeDuplicatedVertices (removeDuplicatedTriangles (removeDegenerateTriangles m)))

/-- The whole post-processing of lines 46–53: rotation, normal
recomputation, then the four-step cleanup. -/
def postProcessMesh (f : Vec3 → Vec3) (m : Mesh) : Mesh :=
  cleanupMesh (computeVertexNormals (rotateMesh f m))

/-! ### Structural facts about the modelled operations -/

theorem dedupSeen_sublist {α β : Type} [DecidableEq β] (key : α → β)
    (l : List α) : ∀ seen, List.Sublist (dedupSeen key seen l) l := by
  induction l with
  | nil =>
    intro seen
    exact List.Sublist.refl _
  | cons a as ih =>
    intro seen
    unfold dedupSeen
    by_cases h : key a ∈ seen
    · rw [if_pos h]
      exact (ih seen).cons a
    · rw [if_neg h]
      exact (ih (key a :: seen)).cons₂ a

theorem dedupByKey_sublist {α β : Type} [DecidableEq β] (key : α → β)
    (l : List α) : List.Sublist (dedupByKey key l) l :=
  dedupSeen_sublist key l []

/-- Claim C7: each of the six post-processing steps leaves the vertex count
and the triangle count no larger than before that step; in particular the
fully post-processed mesh never has more vertices or triangles than the
reconstructed mesh. -/
theorem mesh_cleanup_counts (f : Vec3 → Vec3) (m : Mesh) :
    ((rotateMesh f m).vertices.length ≤ m.vertices.length ∧
     (rotateMesh f m).triangles.length ≤ m.triangles.length) ∧
    ((computeVertexNormals m).vertices.length ≤ m.vertices.length ∧
     (computeVertexNormals m).triangles.length ≤ m.triangles.length) ∧
    ((removeDegenerateTriangles m).vertices.length ≤ m.vertices.length ∧
     (removeDegenerateTriangles m).triangles.length ≤ m.triangles.length) ∧
    ((removeDuplicatedTriangles m).vertices.length ≤ m.vertices.length ∧
     (removeDuplicatedTriangles m).triangles.length ≤ m.triangles.length) ∧
    ((removeDuplicatedVertices m).vertices.length ≤ m.vertices.length ∧
     (removeDuplicatedVertices m).triangles.length ≤ m.triangles.length) ∧
    ((removeNonManifoldEdges m).vertices.length ≤ m.vertices.length ∧
     (removeNonManifoldEdges m).triangles.length ≤ m.triangles.length) ∧
    ((postProcessMesh f m).vertices.length ≤ m.vertices.length ∧
     (postProcessMesh f m).triangles.length ≤ m.triangles.length) := by
  have hrot : ∀ m' : Mesh, (rotateMesh f m').vertices.length ≤ m'.vertices.length ∧
      (rotateMesh f m').triangles.length ≤ m'.triangles.length :=
    fun m' => ⟨le_of_eq (List.length_map _ _), le_refl _⟩
  have hnorm : ∀ m' : Mesh, (computeVertexNormals m').vertices.length ≤ m'.vertices.length ∧
      (computeVertexNormals m').triangles.length ≤ m'.triangles.length :=
    fun m' => ⟨le_refl _, le_refl _⟩
  have hdeg : ∀ m' : Mesh, (removeDegenerateTriangles m').vertices.length ≤ m'.vertices.length ∧
      (removeDegenerateTriangles m').triangles.length ≤ m'.triangles.length :=
    fun m' => ⟨le_refl _, List.length_filter_le _ _⟩
  have hdupt : ∀ m' : Mesh, (removeDuplicatedTriangles m').vertices.length ≤ m'.vertices.length ∧
      (removeDuplicatedTriangles m').triangles.length ≤ m'.triangles.length :=
    fun m' => ⟨le_refl _, (dedupByKey_sublist triKey m'.triangles).length_le⟩
  have hdupv : ∀ m' : Mesh, (removeDuplicatedVertices m').vertices.length ≤ m'.vertices.length ∧
      (removeDuplicatedVertices m').triangles.length ≤ m'.triangles.length :=
    fun m' => ⟨(dedupByKey_sublist id m'.vertices).length_le,
               le_of_eq (List.length_map _ _)⟩
  have hnonman : ∀ m' : Mesh, (removeNonManifoldEdges m').vertices.length ≤ m'.vertices.length ∧
      (removeNonManifoldEdges m').triangles.length ≤ m'.triangles.length :=
    fun m' => ⟨le_refl _, List.length_filter_le _ _⟩
  refine ⟨hrot m, hnorm m, hdeg m, hdupt m, hdupv m, hnonman m, ?_, ?_⟩
  · calc (postProcessMesh f m).vertices.length
        ≤ (removeDuplicatedVertices (removeDuplicatedTriangles (removeDegenerateTriangles
            (computeVertexNormals (rotateMesh f m))))).vertices.length :=
          (hnonman _).1
      _ ≤ (removeDuplicatedTriangles (removeDegenerateTriangles
            (computeVertexNormals (rotateMesh f m)))).vertices.length := (hdupv _).1
      _ ≤ (removeDegenerateTriangles (computeVertexNormals (rotateMesh f m))).vertices.length :=
          (hdupt _).1
      _ ≤ (computeVertexNormals (rotateMesh f m)).vertices.length := (hdeg _).1
      _ ≤ (rotateMesh f m).vertices.length := (hnorm _).1
      _ ≤ m.vertices.length := (hrot m).1
  · calc (postProcessMesh f m).triangles.length
        ≤ (removeDuplicatedVertices (removeDuplicatedTriangles (removeDegenerateTriangles
            (computeVertexNormals (rotateMesh f m))))).triangles.length :=
          (hnonman _).2
      _ ≤ (removeDuplicatedTriangles (removeDegenerateTriangles
            (computeVertexNormals (rotateMesh f m)))).triangles.length := (hdupv _).2
      _ ≤ (removeDegenerateTriangles (computeVertexNormals (rotateMesh f m))).triangles.length :=
          (hdupt _).2
      _ ≤ (computeVertexNormals (rotateMesh f m)).triangles.length := (hdeg _).2
      _ ≤ (rotateMesh f m).triangles.length := (hnorm _).2
      _ ≤ m.triangles.length := (hrot m).2

/-! ### Idempotence infrastructure for the cleanup sequence -/

theorem dedupSeen_eq_self {α β : Type} [DecidableEq β] (key : α → β) (l : List α) :
    ∀ seen, (l.map key).Nodup → (∀ a ∈ l, key a ∉ seen) → dedupSeen key seen l = l := by
  induction l with
  | nil =>
    intro seen _ _
    rfl
  | cons a as ih =>
    intro seen hnd hdisj
    rw [List.map_cons, List.nodup_cons] at hnd
    unfold dedupSeen
    rw [if_neg (hdisj a (List.mem_cons_self a as))]
    congr 1
    refine ih (key a :: seen) hnd.2 ?_
    intro b hb hmem
    rcases List.mem_cons.mp hmem with heq | hmem2
    · exact hnd.1 (heq ▸ List.mem_map_of_mem key hb)
    · exact hdisj b (List.mem_cons_of_mem a hb) hmem2

theorem dedupSeen_keys {α β : Type} [DecidableEq β] (key : α → β) (l : List α) :
    ∀ seen, ((dedupSeen key seen l).map key).Nodup ∧
      ∀ b ∈ (dedupSeen key seen l).map key, b ∉ seen := by
  induction l with
  | nil =>
    intro seen
    exact ⟨List.Pairwise.nil, by intro b hb; simp [dedupSeen] at hb⟩
  | cons a as ih =>
    intro seen
    unfold dedupSeen
    by_cases h : key a ∈ seen
    · rw [if_pos h]
      exact ih seen
    · rw [if_neg h]
      obtain ⟨h1, h2⟩ := ih (key a :: seen)
      simp only [List.map_cons]
      constructor
      · rw [List.nodup_cons]
        exact ⟨fun hmem => (h2 _ hmem) (List.mem_cons_self _ _), h1⟩
      · intro b hb
        rcases List.mem_cons.mp hb with rfl | hb2
        · exact h
        · intro hbs
          exact (h2 b hb2) (List.mem_cons_of_mem _ hbs)

theorem dedupByKey_eq_self {α β : Type} [DecidableEq β] (key : α → β) (l : List α)
    (h : (l.map key).Nodup) : dedupByKey key l = l :=
  dedupSeen_eq_self key l [] h (fun a _ => List.not_mem_nil (key a))

theorem dedupByKey_keys_nodup {α β : Type} [DecidableEq β] (key : α → β) (l : List α) :
    ((dedupByKey key l).map key).Nodup :=
  (dedupSeen_keys key l []).1

theorem vecIdx_getD (vs : List Vec3) (hv : vs.Nodup) (k : ℕ) (hk : k < vs.length) :
    vecIdx (vs.getD k (0, 0, 0)) vs = k := by
  induction vs generalizing k with
  | nil => simp at hk
  | cons v rest ih =>
    rw [List.nodup_cons] at hv
    cases k with
    | zero =>
      show vecIdx v (v :: rest) = 0
      unfold vecIdx
      rw [if_pos rfl]
    | succ k =>
      have hk' : k < rest.length := by
        simpa using hk
      have hgetd : (v :: rest).getD (k + 1) (0, 0, 0) = rest.getD k (0, 0, 0) := rfl
      have hmem : rest.getD k (0, 0, 0) ∈ rest := by
        rw [List.getD_eq_getElem?_getD, List.getElem?_eq_getElem hk']
        exact List.getElem_mem hk'
      have hne : v ≠ rest.getD k (0, 0, 0) := fun h => hv.1 (h ▸ hmem)
      rw [hgetd]
      show vecIdx (rest.getD k (0, 0, 0)) (v :: rest) = k + 1
      unfold vecIdx
      rw [if_neg hne, ih hv.2 k hk']

theorem removeDuplicatedVertices_eq_self (m : Mesh) (hv : m.vertices.Nodup)
    (ht : ∀ t ∈ m.triangles, t.1 < m.vertices.length ∧ t.2.1 < m.vertices.length ∧
      t.2.2 < m.vertices.length) :
    removeDuplicatedVertices m = m := by
  have hvs : dedupByKey id m.vertices = m.vertices :=
    dedupByKey_eq_self id m.vertices (by rw [List.map_id]; exact hv)
  have hremap : ∀ k, k < m.vertices.length →
      remapIndex m.vertices m.vertices k = k := by
    intro k hk
    unfold remapIndex
    exact vecIdx_getD m.vertices hv k hk
  have htri : ∀ t ∈ m.triangles,
      (remapIndex m.vertices m.vertices t.1,
       remapIndex m.vertices m.vertices t.2.1,
       remapIndex m.vertices m.vertices t.2.2) = t := by
    intro t htm
    obtain ⟨h1, h2, h3⟩ := ht t htm
    rw [hremap t.1 h1, hremap t.2.1 h2, hremap t.2.2 h3]
  unfold removeDuplicatedVertices
  rw [hvs, List.map_congr_left htri, List.map_id']

theorem edgeDegree_mono (ts sub : List Tri) (h : List.Sublist sub ts) (e : ℕ × ℕ) :
    edgeDegree sub e ≤ edgeDegree ts e :=
  (h.filter _).length_le

/-- A mesh whose triangles all survive every one of the four cleanup filters
is a fixed point of the cleanup sequence. -/
theorem cleanup_fixpoint (vs : List Vec3) (ts : List Tri) (hv : vs.Nodup)
    (hok : ∀ t ∈ ts, triOK t = true)
    (hkeys : (ts.map triKey).Nodup)
    (hvalid : ∀ t ∈ ts, t.1 < vs.length ∧ t.2.1 < vs.length ∧ t.2.2 < vs.length)
    (hman : ∀ t ∈ ts, manifoldTri ts t = true) :
    cleanupMesh (Mesh.mk vs ts) = Mesh.mk vs ts := by
  have e1 : removeDegenerateTriangles (Mesh.mk vs ts) = Mesh.mk vs ts := by
    show Mesh.mk vs (ts.filter triOK) = Mesh.mk vs ts
    rw [List.filter_eq_self.mpr hok]
  have e2 : removeDuplicatedTriangles (Mesh.mk vs ts) = Mesh.mk vs ts := by
    show Mesh.mk vs (dedupByKey triKey ts) = Mesh.mk vs ts
    rw [dedupByKey_eq_self triKey ts hkeys]
  have e3 : removeDuplicatedVertices (Mesh.mk vs ts) = Mesh.mk vs ts :=
    removeDuplicatedVertices_eq_self _ hv hvalid
  have e4 : removeNonManifoldEdges (Mesh.mk vs ts) = Mesh.mk vs ts := by
    show Mesh.mk vs (ts.filter (manifoldTri ts)) = Mesh.mk vs ts
    rw [List.filter_eq_self.mpr hman]
  unfold cleanupMesh
  rw [e1, e2, e3, e4]

/-- A mesh with two coincident vertices referenced by one triangle. -/
def badMesh : Mesh := ⟨[(0, 0, 0), (0, 0, 0), (1, 0, 0)], [(0, 1, 2)]⟩

/-- Claim C8 is false as stated: on `badMesh` the four-step cleanup applied
twice does not preserve the counts of a single application — merging the two
coincident vertices turns the triangle into a degenerate one that only a
second pass removes (1 triangle after one pass, 0 after two). -/
theorem cleanup_not_idempotent_counterexample :
    ¬ ((cleanupMesh (cleanupMesh badMesh)).vertices.length
          = (cleanupMesh badMesh).vertices.length ∧
       (cleanupMesh (cleanupMesh badMesh)).triangles.length
          = (cleanupMesh badMesh).triangles.length) := by
  decide

/-- Claim C8 (amended): on meshes whose vertices are pairwise distinct and
whose triangles reference only in-range vertex indices, the four-step cleanup
sequence is idempotent — the second application is the identity, so in
particular vertex and triangle counts are unchanged. (Without the
distinct-vertex proviso the claim fails, see the counterexample: merging
duplicated vertices can create a degenerate triangle that only a second pass
removes.) -/
theorem cleanup_idempotent_of_nodup (m : Mesh) (hv : m.vertices.Nodup)
    (ht : ∀ t ∈ m.triangles, t.1 < m.vertices.length ∧ t.2.1 < m.vertices.length ∧
      t.2.2 < m.vertices.length) :
    cleanupMesh (cleanupMesh m) = cleanupMesh m ∧
    (cleanupMesh (cleanupMesh m)).vertices.length = (cleanupMesh m).vertices.length ∧
    (cleanupMesh (cleanupMesh m)).triangles.length = (cleanupMesh m).triangles.length := by
  have hsub1 : List.Sublist (m.triangles.filter triOK) m.triangles :=
    List.filter_sublist m.triangles
  have hsub2 : List.Sublist (dedupByKey triKey (m.triangles.filter triOK))
      (m.triangles.filter triOK) := dedupByKey_sublist _ _
  have hvalid2 : ∀ t ∈ dedupByKey triKey (m.triangles.filter triOK),
      t.1 < m.vertices.length ∧ t.2.1 < m.vertices.length ∧ t.2.2 < m.vertices.length :=
    fun t htm => ht t (hsub1.subset (hsub2.subset htm))
  have h3 : removeDuplicatedVertices
      (Mesh.mk m.vertices (dedupByKey triKey (m.triangles.filter triOK)))
      = Mesh.mk m.vertices (dedupByKey triKey (m.triangles.filter triOK)) :=
    removeDuplicatedVertices_eq_self _ hv hvalid2
  have hfirst : cleanupMesh m
      = Mesh.mk m.vertices ((dedupByKey triKey (m.triangles.filter triOK)).filter
          (manifoldTri (dedupByKey triKey (m.triangles.filter triOK)))) := by
    unfold cleanupMesh
    rw [show removeDuplicatedTriangles (removeDegenerateTriangles m)
        = Mesh.mk m.vertices (dedupByKey triKey (m.triangles.filter triOK)) from rfl, h3]
    rfl
  have hsub4 : List.Sublist ((dedupByKey triKey (m.triangles.filter triOK)).filter
      (manifoldTri (dedupByKey triKey (m.triangles.filter triOK))))
      (dedupByKey triKey (m.triangles.filter triOK)) := List.filter_sublist _
  have hok4 : ∀ t ∈ (dedupByKey triKey (m.triangles.filter triOK)).filter
      (manifoldTri (dedupByKey triKey (m.triangles.filter triOK))), triOK t = true :=
    fun t htm => List.of_mem_filter (hsub2.subset (hsub4.subset htm))
  have hkeys4 : (((dedupByKey triKey (m.triangles.filter triOK)).filter
      (manifoldTri (dedupByKey triKey (m.triangles.filter triOK)))).map triKey).Nodup :=
    (dedupByKey_keys_nodup triKey (m.triangles.filter triOK)).sublist (hsub4.map triKey)
  have hvalid4 : ∀ t ∈ (dedupByKey triKey (m.triangles.filter triOK)).filter
      (manifoldTri (dedupByKey triKey (m.triangles.filter triOK))),
      t.1 < m.vertices.length ∧ t.2.1 < m.vertices.length ∧ t.2.2 < m.vertices.length :=
    fun t htm => hvalid2 t (hsub4.subset htm)
  have hman4 : ∀ t ∈ (dedupByKey triKey (m.triangles.filter triOK)).filter
      (manifoldTri (dedupByKey triKey (m.triangles.filter triOK))),
      manifoldTri ((dedupByKey triKey (m.triangles.filter triOK)).filter
        (manifoldTri (dedupByKey triKey (m.triangles.filter triOK)))) t = true := by
    intro t htm
    have hold : manifoldTri (dedupByKey triKey (m.triangles.filter triOK)) t = true :=
      List.of_mem_filter htm
    rw [manifoldTri, List.all_eq_true] at hold
    rw [manifoldTri, List.all_eq_true]
    intro e he
    have hle := hold e he
    rw [decide_eq_true_eq] at hle
    rw [decide_eq_true_eq]
    exact le_trans (edgeDegree_mono _ _ hsub4 e) hle
  have hfix := cleanup_fixpoint m.vertices
    ((dedupByKey triKey (m.triangles.filter triOK)).filter
      (manifoldTri (dedupByKey triKey (m.triangles.filter triOK))))
    hv hok4 hkeys4 hvalid4 hman4
  refine ⟨?_, ?_, ?_⟩
  · rw [hfirst]
    exact hfix
  · rw [hfirst, hfix]
  · rw [hfirst, hfix]

/-- A mesh with pairwise-distinct vertices and one valid triangle. -/
def goodMesh : Mesh := ⟨[(0, 0, 0), (1, 0, 0), (0, 1, 0)], [(0, 1, 2)]⟩

/-- Witness for the amended C8 at a concrete well-formed mesh. -/
theorem cleanup_idempotent_of_nodup_witness :
    goodMesh.vertices.Nodup ∧
    (∀ t ∈ goodMesh.triangles, t.1 < goodMesh.vertices.length ∧
      t.2.1 < goodMesh.vertices.length ∧ t.2.2 < goodMesh.vertices.length) ∧
    (cleanupMesh (cleanupMesh goodMesh) = cleanupMesh goodMesh ∧
     (cleanupMesh (cleanupMesh goodMesh)).vertices.length
        = (cleanupMesh goodMesh).vertices.length ∧
     (cleanupMesh (cleanupMesh goodMesh)).triangles.length
        = (cleanupMesh goodMesh).triangles.length) :=
  ⟨by decide, by decide, cleanup_idempotent_of_nodup goodMesh (by decide) (by decide)⟩

/-! ## Mesh mutation order (`generate_mesh`, lines 46–53)

The sequence of in-place mesh mutations between Poisson reconstruction and
export, as a trace. The geometry library's Euler-XYZ rotation-matrix
constructor is modelled from its documented meaning. -/

/-- Rotation by angle `t` about the x-axis. -/
noncomputable def rotX (t : ℝ) : Matrix (Fin 3) (Fin 3) ℝ :=
  !![1, 0, 0; 0, Real.cos t, -Real.sin t; 0, Real.sin t, Real.cos t]

/-- Rotation by angle `t` about the y-axis. -/
noncomputable def rotY (t : ℝ) : Matrix (Fin 3) (Fin 3) ℝ :=
  !![Real.cos t, 0, Real.sin t; 0, 1, 0; -Real.sin t, 0, Real.cos t]

/-- Rotation by angle `t` about the z-axis. -/
noncomputable def rotZ (t : ℝ) : Matrix (Fin 3) (Fin 3) ℝ :=
  !![Real.cos t, -Real.sin t, 0; Real.sin t, Real.cos t, 0; 0, 0, 1]

/-- Modelled from the spec: the geometry library's
`get_rotation_matrix_from_xyz((a, b, c))` is the Euler-XYZ product
`Rx(a) · Ry(b) · Rz(c)`; the source calls it with `(np.pi, 0, 0)`. -/
noncomputable def rotationMatrixFromXYZ (a b c : ℝ) : Matrix (Fin 3) (Fin 3) ℝ :=
  rotX a * rotY b * rotZ c

/-- The in-place mesh mutations `generate_mesh` can apply. -/
inductive MeshOp where
  | rotate (rotation : Matrix (Fin 3) (Fin 3) ℝ) (center : ℝ × ℝ × ℝ)
  | computeNormals
  | removeDegenerate
  | removeDupTriangles
  | removeDupVertices
  | removeNonManifold

/-- The exact mutation sequence of lines 46–53, in source order: rotation by
`get_rotation_matrix_from_xyz((np.pi, 0, 0))` about center `(0, 0, 0)`, then
normal recomputation, then the four removal passes — nothing else happens to
the mesh before `write_triangle_mesh`. -/
noncomputable def meshMutationTrace : List MeshOp :=
  [MeshOp.rotate (rotationMatrixFromXYZ Real.pi 0 0) (0, 0, 0),
   MeshOp.computeNormals,
   MeshOp.removeDegenerate,
   MeshOp.removeDupTriangles,
   MeshOp.removeDupVertices,
   MeshOp.removeNonManifold]

/-- Claim C5: the post-reconstruction mutations are exactly, and in exactly
this order: a rotation by Euler angles `(π, 0, 0)` — which equals the 180°
rotation about the x-axis, `diag(1, −1, −1)` — with pivot at the origin,
normal recomputation, degenerate-triangle removal, duplicated-triangle
removal, duplicated-vertex removal, and non-manifold-edge removal; no other
mesh mutation occurs before export. -/
theorem mesh_mutation_order :
    rotationMatrixFromXYZ Real.pi 0 0 = !![1, 0, 0; 0, -1, 0; 0, 0, -1] ∧
    rotX Real.pi = !![1, 0, 0; 0, -1, 0; 0, 0, -1] ∧
    meshMutationTrace =
      [MeshOp.rotate (rotX Real.pi) (0, 0, 0),
       MeshOp.computeNormals,
       MeshOp.removeDegenerate,
       MeshOp.removeDupTriangles,
       MeshOp.removeDupVertices,
       MeshOp.removeNonManifold] := by
  have hx : rotX Real.pi = !![1, 0, 0; 0, -1, 0; 0, 0, -1] := by
    unfold rotX
    rw [Real.cos_pi, Real.sin_pi, neg_zero]
  have hxyz : rotationMatrixFromXYZ Real.pi 0 0 = rotX Real.pi := by
    unfold rotationMatrixFromXYZ
    have hy : rotY 0 = 1 := by
      unfold rotY
      rw [Real.cos_zero, Real.sin_zero, neg_zero, Matrix.one_fin_three]
    have hz : rotZ 0 = 1 := by
      unfold rotZ
      rw [Real.cos_zero, Real.sin_zero, neg_zero, Matrix.one_fin_three]
    rw [hy, hz, mul_one, mul_one]
  refine ⟨hxyz.trans hx, hx, ?_⟩
  unfold meshMutationTrace
  rw [hxyz]

end HiRISE
